import Mathlib

/-!
Verification of the game-progression state machine of the world-map game
(`src/useGameState.ts`).  The TypeScript hook owns a `GameState` record and
three transition functions: `createInitialState` (shuffle the catalog ids and
start a session), `handleCountryClick` (evaluate a click), and `skipCountry`
(skip the current target).  We embed the state record and the transitions as
pure Lean functions.  JavaScript `Set<string>` becomes `Finset String`,
`string[]` becomes `List String`, `number` timestamps become `Nat`,
`Math.random` is modelled by an explicit choice function `rand : Nat → Nat`
(the Fisher-Yates index drawn at loop counter `i` is `rand i % (i + 1)`,
matching the range of `Math.floor(Math.random() * (i + 1))`), and `Date.now()`
becomes an explicit `now : Nat` argument to the click transition.
-/

namespace WorldMap

/-- The `status` field of the TypeScript `GameState`: the string union
`'playing' | 'finished'`. -/
inductive Status where
  | playing
  | finished
  deriving DecidableEq

/-- The `GameState` record of `useGameState.ts`, field for field. -/
structure GameState where
  completed : Finset String
  skipped : Finset String
  wrongClicks : Nat
  currentTargetId : String
  status : Status
  lastWrongId : Option String
  lastWrongTimestamp : Nat
  countryOrder : List String
  currentIndex : Nat
  deriving DecidableEq

/-- One swap step of the Fisher-Yates loop: the JavaScript destructuring
assignment `[shuffled[i], shuffled[j]] = [shuffled[j], shuffled[i]]`.
Both indices are in bounds whenever the loop executes it. -/
def listSwap {α : Type} (l : List α) (i j : Nat) : List α :=
  match l[i]?, l[j]? with
  | some a, some b => (l.set i b).set j a
  | _, _ => l

/-- The Fisher-Yates loop `for (let i = shuffled.length - 1; i > 0; i--)`
unrolled as recursion on the loop counter: at counter `i + 1` the code draws
`j = Math.floor(Math.random() * (i + 2))` and swaps positions `i + 1` and
`j`. -/
def shuffleAux {α : Type} (rand : Nat → Nat) : Nat → List α → List α
  | 0, l => l
  | i + 1, l => shuffleAux rand i (listSwap l (i + 1) (rand (i + 1) % (i + 2)))

/-- `shuffleArray` from `useGameState.ts`: copy the array and run the
Fisher-Yates loop from `length - 1` down to `1`. -/
def shuffleArray {α : Type} (rand : Nat → Nat) (array : List α) : List α :=
  shuffleAux rand (array.length - 1) array

/-- `createInitialState` from `useGameState.ts`.  The JavaScript expression
`shuffled[0] || ''` yields `''` both when the array is empty and when its
first element is the empty string, which is exactly `shuffled.getD 0 ""`. -/
def createInitialState (rand : Nat → Nat) (countryIds : List String) : GameState :=
  let shuffled := shuffleArray rand countryIds
  { completed := ∅
    skipped := ∅
    wrongClicks := 0
    currentTargetId := shuffled.getD 0 ""
    status := Status.playing
    lastWrongId := none
    lastWrongTimestamp := 0
    countryOrder := shuffled
    currentIndex := 0 }

/-- `handleCountryClick` from `useGameState.ts`.  The guards appear in the
source order: finished, already completed, correct, wrong.  The JavaScript
comparison `nextIndex >= prev.countryOrder.length` is `length ≤ nextIndex`,
and `prev.countryOrder[nextIndex]` in the not-finished branch is in bounds,
rendered with `getD` (out-of-bounds indexing would give `undefined`). -/
def handleCountryClick (prev : GameState) (countryId : String) (now : Nat) : GameState :=
  if prev.status = Status.finished then prev
  else if countryId ∈ prev.completed then prev
  else if countryId = prev.currentTargetId then
    let nextIndex := prev.currentIndex + 1
    let isFinished := prev.countryOrder.length ≤ nextIndex
    { prev with
      completed := insert countryId prev.completed
      currentIndex := nextIndex
      currentTargetId := if isFinished then "" else prev.countryOrder.getD nextIndex ""
      status := if isFinished then Status.finished else Status.playing
      lastWrongId := none }
  else
    { prev with
      wrongClicks := prev.wrongClicks + 1
      lastWrongId := some countryId
      lastWrongTimestamp := now }

/-- `skipCountry` from `useGameState.ts`. -/
def skipCountry (prev : GameState) : GameState :=
  if prev.status = Status.finished then prev
  else
    let nextIndex := prev.currentIndex + 1
    let isFinished := prev.countryOrder.length ≤ nextIndex
    { prev with
      skipped := insert prev.currentTargetId prev.skipped
      currentIndex := nextIndex
      currentTargetId := if isFinished then "" else prev.countryOrder.getD nextIndex ""
      status := if isFinished then Status.finished else Status.playing
      lastWrongId := none }

/-- `resetGame` from `useGameState.ts`: build a fresh initial state over the
same catalog ids with a fresh draw of randomness. -/
def resetGame (rand : Nat → Nat) (countryIds : List String) : GameState :=
  createInitialState rand countryIds

/-- One user action: a click (`handleCountryClick`, carrying the `Date.now()`
value observed during the call) or a skip (`skipCountry`). -/
inductive Act where
  | click (countryId : String) (now : Nat)
  | skipA
  deriving DecidableEq

/-- Apply one action to a state. -/
def applyAct (s : GameState) : Act → GameState
  | Act.click countryId now => handleCountryClick s countryId now
  | Act.skipA => skipCountry s

/-- Apply a sequence of actions left to right. -/
def run (s : GameState) (acts : List Act) : GameState :=
  acts.foldl applyAct s

/-- States reachable from `createInitialState` on a given id list by some
sequence of clicks and skips, for some draw of randomness. -/
def ReachableFrom (ids : List String) (s : GameState) : Prop :=
  ∃ rand acts, s = run (createInitialState rand ids) acts

/-- States reachable from `createInitialState` on some id list. -/
def Reachable (s : GameState) : Prop :=
  ∃ ids, ReachableFrom ids s

/-! ### The shuffle produces a permutation -/

/-- Replacing the element at position `k` by `x` and putting the old element
in front is a permutation of putting `x` in front. -/
theorem cons_set_perm {α : Type} (x : α) :
    ∀ (l : List α) (k : Nat) (hk : k < l.length),
      List.Perm (l.get ⟨k, hk⟩ :: l.set k x) (x :: l)
  | y :: ys, 0, _ => by
    simpa using List.Perm.swap x y ys
  | y :: ys, k + 1, hk => by
    have hk' : k < ys.length := by simpa using Nat.lt_of_succ_lt_succ hk
    have ih := cons_set_perm x ys k hk'
    show List.Perm (ys.get ⟨k, hk'⟩ :: y :: ys.set k x) (x :: y :: ys)
    exact ((List.Perm.swap y (ys.get ⟨k, hk'⟩) (ys.set k x)).trans
      (ih.cons y)).trans (List.Perm.swap x y ys)

/-- Exchanging the elements at two in-bounds positions is a permutation. -/
theorem set_set_perm {α : Type} :
    ∀ (l : List α) (i j : Nat) (hi : i < l.length) (hj : j < l.length),
      List.Perm ((l.set i (l.get ⟨j, hj⟩)).set j (l.get ⟨i, hi⟩)) l
  | y :: ys, 0, 0, _, _ => by simp
  | y :: ys, 0, j + 1, hi, hj => by
    have hj' : j < ys.length := by simpa using Nat.lt_of_succ_lt_succ hj
    simpa using cons_set_perm y ys j hj'
  | y :: ys, i + 1, 0, hi, hj => by
    have hi' : i < ys.length := by simpa using Nat.lt_of_succ_lt_succ hi
    simpa using cons_set_perm y ys i hi'
  | y :: ys, i + 1, j + 1, hi, hj => by
    have hi' : i < ys.length := by simpa using Nat.lt_of_succ_lt_succ hi
    have hj' : j < ys.length := by simpa using Nat.lt_of_succ_lt_succ hj
    simpa using (set_set_perm ys i j hi' hj').cons y

/-- One Fisher-Yates swap is a permutation. -/
theorem listSwap_perm {α : Type} (l : List α) (i j : Nat) : List.Perm (listSwap l i j) l := by
  unfold listSwap
  cases hi : l[i]? with
  | none => exact List.Perm.refl l
  | some a =>
    cases hj : l[j]? with
    | none => exact List.Perm.refl l
    | some b =>
      obtain ⟨hi', ha⟩ := List.getElem?_eq_some.mp hi
      obtain ⟨hj', hb⟩ := List.getElem?_eq_some.mp hj
      have := set_set_perm l i j hi' hj'
      simp only [List.get_eq_getElem, ha, hb] at this
      exact this

/-- The whole Fisher-Yates loop is a permutation. -/
theorem shuffleAux_perm {α : Type} (rand : Nat → Nat) :
    ∀ (n : Nat) (l : List α), List.Perm (shuffleAux rand n l) l
  | 0, l => List.Perm.refl l
  | n + 1, l =>
    (shuffleAux_perm rand n _).trans (listSwap_perm l (n + 1) (rand (n + 1) % (n + 2)))

/-- `shuffleArray` returns a permutation of its input, whatever the random
draws were. -/
theorem shuffleArray_perm {α : Type} (rand : Nat → Nat) (l : List α) :
    List.Perm (shuffleArray rand l) l :=
  shuffleAux_perm rand (l.length - 1) l

/-! ### Branch characterizations of the transitions -/

/-- The `status` union has only two members. -/
theorem status_playing_of_ne {s : GameState} (h : s.status ≠ Status.finished) :
    s.status = Status.playing := by
  cases hs : s.status
  · rfl
  · exact absurd hs h

/-- Clicks are ignored once the game is finished. -/
theorem click_finished (s : GameState) (cid : String) (now : Nat)
    (h1 : s.status = Status.finished) : handleCountryClick s cid now = s := by
  unfold handleCountryClick
  rw [if_pos h1]

/-- Clicks on an already-completed country are ignored. -/
theorem click_repeat (s : GameState) (cid : String) (now : Nat)
    (h1 : s.status ≠ Status.finished) (h2 : cid ∈ s.completed) :
    handleCountryClick s cid now = s := by
  unfold handleCountryClick
  rw [if_neg h1, if_pos h2]

/-- The correct-click branch, written out. -/
theorem click_correct (s : GameState) (cid : String) (now : Nat)
    (h1 : s.status ≠ Status.finished) (h2 : cid ∉ s.completed)
    (h3 : cid = s.currentTargetId) :
    handleCountryClick s cid now =
      { s with
        completed := insert cid s.completed
        currentIndex := s.currentIndex + 1
        currentTargetId :=
          if s.countryOrder.length ≤ s.currentIndex + 1 then ""
          else s.countryOrder.getD (s.currentIndex + 1) ""
        status :=
          if s.countryOrder.length ≤ s.currentIndex + 1 then Status.finished
          else Status.playing
        lastWrongId := none } := by
  unfold handleCountryClick
  rw [if_neg h1, if_neg h2, if_pos h3]

/-- The wrong-click branch, written out. -/
theorem click_wrong (s : GameState) (cid : String) (now : Nat)
    (h1 : s.status ≠ Status.finished) (h2 : cid ∉ s.completed)
    (h3 : cid ≠ s.currentTargetId) :
    handleCountryClick s cid now =
      { s with
        wrongClicks := s.wrongClicks + 1
        lastWrongId := some cid
        lastWrongTimestamp := now } := by
  unfold handleCountryClick
  rw [if_neg h1, if_neg h2, if_neg h3]

/-- Skips are ignored once the game is finished. -/
theorem skip_finished (s : GameState) (h1 : s.status = Status.finished) :
    skipCountry s = s := by
  unfold skipCountry
  rw [if_pos h1]

/-- The skip branch while playing, written out. -/
theorem skip_playing (s : GameState) (h1 : s.status ≠ Status.finished) :
    skipCountry s =
      { s with
        skipped := insert s.currentTargetId s.skipped
        currentIndex := s.currentIndex + 1
        currentTargetId :=
          if s.countryOrder.length ≤ s.currentIndex + 1 then ""
          else s.countryOrder.getD (s.currentIndex + 1) ""
        status :=
          if s.countryOrder.length ≤ s.currentIndex + 1 then Status.finished
          else Status.playing
        lastWrongId := none } := by
  unfold skipCountry
  rw [if_neg h1]

/-! ### The basic structural invariant -/

/-- Structural invariant relating the cursor, the play order, the target and
the status; it holds in every reachable state, for any initial id list. -/
structure InvB (s : GameState) : Prop where
  target_eq : s.currentTargetId = s.countryOrder.getD s.currentIndex ""
  cur_le : s.currentIndex ≤ max s.countryOrder.length 1
  play_lt : s.status = Status.playing →
    s.currentIndex < s.countryOrder.length ∨ (s.countryOrder = [] ∧ s.currentIndex = 0)
  fin_ge : s.status = Status.finished → s.countryOrder.length ≤ s.currentIndex
  compl_sub : s.countryOrder ≠ [] → ∀ x ∈ s.completed, x ∈ s.countryOrder

/-- The initial state satisfies the structural invariant. -/
theorem invB_create (rand : Nat → Nat) (ids : List String) :
    InvB (createInitialState rand ids) := by
  refine ⟨rfl, Nat.zero_le _, ?_, ?_, ?_⟩
  · intro _
    by_cases h : shuffleArray rand ids = []
    · exact Or.inr ⟨h, rfl⟩
    · exact Or.inl (List.length_pos.mpr h)
  · intro h
    simp [createInitialState] at h
  · intro _ x hx
    simp [createInitialState] at hx

/-- Advancing the cursor from a playing state preserves the structural
invariant, whether the advance came from a correct click or from a skip. -/
theorem invB_advance (s : GameState) (newCompleted newSkipped : Finset String)
    (hp : s.status = Status.playing)
    (hsub : s.countryOrder ≠ [] →
      ∀ x ∈ newCompleted, x = s.currentTargetId ∨ x ∈ s.completed)
    (h : InvB s) :
    InvB { s with
      completed := newCompleted
      skipped := newSkipped
      currentIndex := s.currentIndex + 1
      currentTargetId :=
        if s.countryOrder.length ≤ s.currentIndex + 1 then ""
        else s.countryOrder.getD (s.currentIndex + 1) ""
      status :=
        if s.countryOrder.length ≤ s.currentIndex + 1 then Status.finished
        else Status.playing
      lastWrongId := none } := by
  constructor
  · show (if s.countryOrder.length ≤ s.currentIndex + 1 then ""
      else s.countryOrder.getD (s.currentIndex + 1) "") =
        s.countryOrder.getD (s.currentIndex + 1) ""
    by_cases hc : s.countryOrder.length ≤ s.currentIndex + 1
    · rw [if_pos hc, List.getD_eq_default _ _ hc]
    · rw [if_neg hc]
  · show s.currentIndex + 1 ≤ max s.countryOrder.length 1
    rcases h.play_lt hp with hlt | ⟨_, hz⟩
    · exact le_trans hlt (le_max_left _ _)
    · rw [hz]
      exact le_max_right _ _
  · intro hps
    by_cases hc : s.countryOrder.length ≤ s.currentIndex + 1
    · rw [show ({ s with
        completed := newCompleted
        skipped := newSkipped
        currentIndex := s.currentIndex + 1
        currentTargetId :=
          if s.countryOrder.length ≤ s.currentIndex + 1 then ""
          else s.countryOrder.getD (s.currentIndex + 1) ""
        status :=
          if s.countryOrder.length ≤ s.currentIndex + 1 then Status.finished
          else Status.playing
        lastWrongId := none } : GameState).status =
          (if s.countryOrder.length ≤ s.currentIndex + 1 then Status.finished
            else Status.playing) from rfl, if_pos hc] at hps
      exact Status.noConfusion hps
    · exact Or.inl (Nat.lt_of_not_le hc)
  · intro hfs
    by_cases hc : s.countryOrder.length ≤ s.currentIndex + 1
    · exact hc
    · rw [show ({ s with
        completed := newCompleted
        skipped := newSkipped
        currentIndex := s.currentIndex + 1
        currentTargetId :=
          if s.countryOrder.length ≤ s.currentIndex + 1 then ""
          else s.countryOrder.getD (s.currentIndex + 1) ""
        status :=
          if s.countryOrder.length ≤ s.currentIndex + 1 then Status.finished
          else Status.playing
        lastWrongId := none } : GameState).status =
          (if s.countryOrder.length ≤ s.currentIndex + 1 then Status.finished
            else Status.playing) from rfl, if_neg hc] at hfs
      exact Status.noConfusion hfs
  · intro hne x hx
    rcases hsub hne x hx with rfl | hxc
    · rcases h.play_lt hp with hlt | ⟨hemp, _⟩
      · rw [h.target_eq, List.getD_eq_getElem _ _ hlt]
        exact List.getElem_mem _
      · exact absurd hemp hne
    · exact h.compl_sub hne x hxc

/-- `handleCountryClick` preserves the structural invariant. -/
theorem invB_click (s : GameState) (cid : String) (now : Nat) (h : InvB s) :
    InvB (handleCountryClick s cid now) := by
  by_cases h1 : s.status = Status.finished
  · rw [click_finished s cid now h1]
    exact h
  by_cases h2 : cid ∈ s.completed
  · rw [click_repeat s cid now h1 h2]
    exact h
  have hp : s.status = Status.playing := status_playing_of_ne h1
  by_cases h3 : cid = s.currentTargetId
  · rw [click_correct s cid now h1 h2 h3]
    refine invB_advance s _ _ hp (fun _ x hx => ?_) h
    rcases Finset.mem_insert.mp hx with rfl | hxc
    · exact Or.inl h3
    · exact Or.inr hxc
  · rw [click_wrong s cid now h1 h2 h3]
    exact ⟨h.target_eq, h.cur_le, h.play_lt, h.fin_ge, h.compl_sub⟩

/-- `skipCountry` preserves the structural invariant. -/
theorem invB_skip (s : GameState) (h : InvB s) : InvB (skipCountry s) := by
  by_cases h1 : s.status = Status.finished
  · rw [skip_finished s h1]
    exact h
  have hp : s.status = Status.playing := status_playing_of_ne h1
  rw [skip_playing s h1]
  exact invB_advance s s.completed _ hp (fun _ x hx => Or.inr hx) h

/-- A single action preserves the structural invariant. -/
theorem invB_applyAct (s : GameState) (a : Act) (h : InvB s) : InvB (applyAct s a) := by
  cases a with
  | click cid now => exact invB_click s cid now h
  | skipA => exact invB_skip s h

/-- A sequence of actions preserves the structural invariant. -/
theorem invB_run (acts : List Act) (s : GameState) (h : InvB s) : InvB (run s acts) := by
  induction acts generalizing s with
  | nil => exact h
  | cons a as ih => exact ih (applyAct s a) (invB_applyAct s a h)

/-- No click or skip changes the play order. -/
theorem countryOrder_applyAct (s : GameState) (a : Act) :
    (applyAct s a).countryOrder = s.countryOrder := by
  cases a with
  | click cid now =>
    show (handleCountryClick s cid now).countryOrder = s.countryOrder
    unfold handleCountryClick
    split_ifs <;> rfl
  | skipA =>
    show (skipCountry s).countryOrder = s.countryOrder
    unfold skipCountry
    split_ifs <;> rfl

/-- No sequence of clicks and skips changes the play order. -/
theorem countryOrder_run (acts : List Act) (s : GameState) :
    (run s acts).countryOrder = s.countryOrder := by
  induction acts generalizing s with
  | nil => rfl
  | cons a as ih => exact (ih (applyAct s a)).trans (countryOrder_applyAct s a)

/-- Every reachable state satisfies the structural invariant. -/
theorem invB_reachable (s : GameState) (h : Reachable s) : InvB s := by
  obtain ⟨ids, rand, acts, rfl⟩ := h
  exact invB_run acts _ (invB_create rand ids)

/-- The play order of a state reachable from `ids` is a permutation of
`ids`. -/
theorem perm_of_reachableFrom (ids : List String) (s : GameState)
    (h : ReachableFrom ids s) : List.Perm s.countryOrder ids := by
  obtain ⟨rand, acts, rfl⟩ := h
  rw [countryOrder_run]
  exact shuffleArray_perm rand ids

/-! ### The set invariant: completed and skipped partition the passed ids -/

/-- The ids the cursor has already passed, in play order (reading each
position the way the transitions do, with `""` as the out-of-bounds
default). -/
def histIds (s : GameState) : List String :=
  (List.range s.currentIndex).map (fun i => s.countryOrder.getD i "")

/-- Invariant on the `completed` and `skipped` sets; it holds in every state
reachable from a duplicate-free id list. -/
structure InvS (s : GameState) : Prop where
  base : InvB s
  nodup : s.countryOrder.Nodup
  hist : s.completed ∪ s.skipped = (histIds s).toFinset
  disj : Disjoint s.completed s.skipped
  card_eq : s.completed.card + s.skipped.card = s.currentIndex

/-- While playing, the current target has not been completed or skipped
yet. -/
theorem target_not_mem (s : GameState) (h : InvS s) (hp : s.status = Status.playing) :
    s.currentTargetId ∉ s.completed ∪ s.skipped := by
  rw [h.hist]
  intro hmem
  rw [List.mem_toFinset] at hmem
  obtain ⟨i, hi, hgi⟩ := List.mem_map.mp hmem
  rw [List.mem_range] at hi
  rcases h.base.play_lt hp with hlt | ⟨_, hz⟩
  · have hi' : i < s.countryOrder.length := lt_trans hi hlt
    rw [h.base.target_eq, List.getD_eq_getElem _ _ hi', List.getD_eq_getElem _ _ hlt] at hgi
    have := (List.Nodup.getElem_inj_iff h.nodup).mp hgi
    omega
  · rw [hz] at hi
    omega

/-- The initial state over a duplicate-free id list satisfies the set
invariant. -/
theorem invS_create (rand : Nat → Nat) (ids : List String) (hnd : ids.Nodup) :
    InvS (createInitialState rand ids) := by
  refine ⟨invB_create rand ids, ?_, ?_, ?_, ?_⟩
  · exact ((shuffleArray_perm rand ids).nodup_iff).mpr hnd
  · simp [createInitialState, histIds]
  · simp [createInitialState]
  · simp [createInitialState]

/-- `handleCountryClick` preserves the set invariant. -/
theorem invS_click (s : GameState) (cid : String) (now : Nat) (h : InvS s) :
    InvS (handleCountryClick s cid now) := by
  by_cases h1 : s.status = Status.finished
  · rw [click_finished s cid now h1]
    exact h
  by_cases h2 : cid ∈ s.completed
  · rw [click_repeat s cid now h1 h2]
    exact h
  have hp := status_playing_of_ne h1
  have hB := invB_click s cid now h.base
  by_cases h3 : cid = s.currentTargetId
  · have htn := target_not_mem s h hp
    rw [← h3] at htn
    have hts : cid ∉ s.skipped := fun hm => htn (Finset.mem_union_right _ hm)
    rw [click_correct s cid now h1 h2 h3] at hB ⊢
    refine ⟨hB, h.nodup, ?_, ?_, ?_⟩
    · show insert cid s.completed ∪ s.skipped =
        ((List.range (s.currentIndex + 1)).map (fun i => s.countryOrder.getD i "")).toFinset
      have hh : s.completed ∪ s.skipped =
          ((List.range s.currentIndex).map (fun i => s.countryOrder.getD i "")).toFinset :=
        h.hist
      have hcid : cid = s.countryOrder.getD s.currentIndex "" :=
        h3.trans h.base.target_eq
      rw [List.range_succ, List.map_append, List.toFinset_append, ← hh, Finset.insert_union]
      simp [hcid, Finset.insert_eq, Finset.union_comm]
    · show Disjoint (insert cid s.completed) s.skipped
      exact Finset.disjoint_insert_left.mpr ⟨hts, h.disj⟩
    · show (insert cid s.completed).card + s.skipped.card = s.currentIndex + 1
      rw [Finset.card_insert_of_not_mem h2]
      have := h.card_eq
      omega
  · rw [click_wrong s cid now h1 h2 h3] at hB ⊢
    exact ⟨hB, h.nodup, h.hist, h.disj, h.card_eq⟩

/-- `skipCountry` preserves the set invariant. -/
theorem invS_skip (s : GameState) (h : InvS s) : InvS (skipCountry s) := by
  by_cases h1 : s.status = Status.finished
  · rw [skip_finished s h1]
    exact h
  have hp := status_playing_of_ne h1
  have hB := invB_skip s h.base
  have htn := target_not_mem s h hp
  have htc : s.currentTargetId ∉ s.completed := fun hm => htn (Finset.mem_union_left _ hm)
  have hts : s.currentTargetId ∉ s.skipped := fun hm => htn (Finset.mem_union_right _ hm)
  rw [skip_playing s h1] at hB ⊢
  refine ⟨hB, h.nodup, ?_, ?_, ?_⟩
  · show s.completed ∪ insert s.currentTargetId s.skipped =
      ((List.range (s.currentIndex + 1)).map (fun i => s.countryOrder.getD i "")).toFinset
    have hh : s.completed ∪ s.skipped =
        ((List.range s.currentIndex).map (fun i => s.countryOrder.getD i "")).toFinset :=
      h.hist
    rw [List.range_succ, List.map_append, List.toFinset_append, ← hh, Finset.union_insert]
    simp [h.base.target_eq, Finset.insert_eq, Finset.union_comm]
  · show Disjoint s.completed (insert s.currentTargetId s.skipped)
    exact Finset.disjoint_insert_right.mpr ⟨htc, h.disj⟩
  · show s.completed.card + (insert s.currentTargetId s.skipped).card = s.currentIndex + 1
    rw [Finset.card_insert_of_not_mem hts]
    have := h.card_eq
    omega

/-- A single action preserves the set invariant. -/
theorem invS_applyAct (s : GameState) (a : Act) (h : InvS s) : InvS (applyAct s a) := by
  cases a with
  | click cid now => exact invS_click s cid now h
  | skipA => exact invS_skip s h

/-- A sequence of actions preserves the set invariant. -/
theorem invS_run (acts : List Act) (s : GameState) (h : InvS s) : InvS (run s acts) := by
  induction acts generalizing s with
  | nil => exact h
  | cons a as ih => exact ih (applyAct s a) (invS_applyAct s a h)

/-- Every state reachable from a duplicate-free id list satisfies the set
invariant. -/
theorem invS_reachableFrom (ids : List String) (s : GameState) (hnd : ids.Nodup)
    (h : ReachableFrom ids s) : InvS s := by
  obtain ⟨rand, acts, rfl⟩ := h
  exact invS_run acts _ (invS_create rand ids hnd)

/-- Reading the first `n` positions of a list (with any default) is taking
its first `n` elements, as long as `n` is in bounds. -/
theorem range_map_getD_take {α : Type} (L : List α) (d : α) :
    ∀ (n : Nat), n ≤ L.length → (List.range n).map (fun i => L.getD i d) = L.take n
  | 0, _ => by simp
  | n + 1, h => by
    have hn : n < L.length := h
    rw [List.range_succ, List.map_append,
      range_map_getD_take L d n (Nat.le_of_succ_le h), List.take_succ,
      List.getElem?_eq_getElem hn]
    simp only [List.map_cons, List.map_nil, List.getD_eq_getElem L d hn,
      Option.toList_some]

/-- The cursor never passes the end of a non-empty play order. -/
theorem cursor_le_length (ids : List String) (s : GameState) (hne : ids ≠ [])
    (hr : ReachableFrom ids s) : s.currentIndex ≤ s.countryOrder.length := by
  have hB : InvB s := invB_reachable s ⟨ids, hr⟩
  have hperm := perm_of_reachableFrom ids s hr
  have hordne : s.countryOrder ≠ [] := by
    intro h0
    rw [h0] at hperm
    exact hne (List.Perm.eq_nil hperm.symm)
  have hlen1 : 1 ≤ s.countryOrder.length := List.length_pos.mpr hordne
  have h2 := hB.cur_le
  rw [max_eq_left hlen1] at h2
  exact h2

/-! ### The claims -/

/-- C1, counterexample: `initialize` on an empty id list does NOT produce a
`Finished` state — the code unconditionally sets `status: 'playing'`. -/
theorem C1_counterexample :
    (createInitialState (fun n => n) []).status ≠ Status.finished := by
  decide

/-- C1, amended: `initialize` on an empty id list yields a state that is still
`Playing`, with an empty `playOrder`, cursor `0`, empty `completed` and
`skipped` sets, zero wrong clicks and no last-wrong marker. -/
theorem C1_empty_ids (rand : Nat → Nat) :
    createInitialState rand [] =
      { completed := ∅
        skipped := ∅
        wrongClicks := 0
        currentTargetId := ""
        status := Status.playing
        lastWrongId := none
        lastWrongTimestamp := 0
        countryOrder := []
        currentIndex := 0 } := rfl

/-- C2, counterexample: the state produced by `initialize` on the empty id
list has `cursor = length(playOrder)` (both are `0`) yet its status is not
`Finished`, refuting the unrestricted iff. -/
theorem C2_counterexample :
    (createInitialState (fun n => n) []).status ≠ Status.finished ∧
    (createInitialState (fun n => n) []).currentIndex =
      (createInitialState (fun n => n) []).countryOrder.length := by
  decide

/-- C2, amended: provided the session was initialized from a NON-EMPTY id
list, every state reachable by clicks and skips satisfies
`status = Finished ↔ cursor = length(playOrder)`. -/
theorem C2_finished_iff_cursor (ids : List String) (s : GameState)
    (hne : ids ≠ []) (hr : ReachableFrom ids s) :
    s.status = Status.finished ↔ s.currentIndex = s.countryOrder.length := by
  have hB : InvB s := invB_reachable s ⟨ids, hr⟩
  have hperm := perm_of_reachableFrom ids s hr
  have hordne : s.countryOrder ≠ [] := by
    intro h0
    rw [h0] at hperm
    exact hne (List.Perm.eq_nil hperm.symm)
  have hle := cursor_le_length ids s hne hr
  constructor
  · intro hf
    have h1 := hB.fin_ge hf
    omega
  · intro hc
    cases hs : s.status
    · rcases hB.play_lt hs with hlt | ⟨hemp, _⟩
      · omega
      · exact absurd hemp hordne
    · rfl

/-- C2, witness: in the one-country session finished by clicking its only
target, the status is `Finished` exactly because the cursor equals the play
order's length. -/
theorem C2_witness :
    (run (createInitialState (fun n => n) ["a"]) [Act.click "a" 0]).status =
        Status.finished ↔
      (run (createInitialState (fun n => n) ["a"]) [Act.click "a" 0]).currentIndex =
        (run (createInitialState (fun n => n) ["a"]) [Act.click "a" 0]).countryOrder.length :=
  C2_finished_iff_cursor ["a"] _ (by decide) ⟨fun n => n, [Act.click "a" 0], rfl⟩

/-- C3: in every state reachable from `initialize` on a set of region ids
(per the spec signature `initialize(regionIds: set of string)`, modelled as
a duplicate-free list) by any sequence of clicks and skips,
`completed.size + skipped.size = cursor`. -/
theorem C3_card_invariant (ids : List String) (s : GameState) (hnd : ids.Nodup)
    (hr : ReachableFrom ids s) :
    s.completed.card + s.skipped.card = s.currentIndex :=
  (invS_reachableFrom ids s hnd hr).card_eq

/-- C3, witness: after one skip and one correct click from a two-country
session, both sets together count the cursor value `2`. -/
theorem C3_witness :
    (run (createInitialState (fun n => n) ["a", "b"])
        [Act.skipA, Act.click "b" 3]).completed.card +
      (run (createInitialState (fun n => n) ["a", "b"])
        [Act.skipA, Act.click "b" 3]).skipped.card =
      (run (createInitialState (fun n => n) ["a", "b"])
        [Act.skipA, Act.click "b" 3]).currentIndex :=
  C3_card_invariant ["a", "b"] _ (by decide)
    ⟨fun n => n, [Act.skipA, Act.click "b" 3], rfl⟩

/-- C4: for every (non-empty) id list and every draw of randomness,
`initialize` yields a play order that is a permutation of the input (same
multiset, length preserved), cursor `0`, empty `completed` and `skipped`,
zero wrong clicks, no last-wrong id, and status `Playing`. -/
theorem C4_init_state (rand : Nat → Nat) (ids : List String) (_hne : ids ≠ []) :
    List.Perm (createInitialState rand ids).countryOrder ids ∧
    (createInitialState rand ids).countryOrder.length = ids.length ∧
    (createInitialState rand ids).currentIndex = 0 ∧
    (createInitialState rand ids).completed = ∅ ∧
    (createInitialState rand ids).skipped = ∅ ∧
    (createInitialState rand ids).wrongClicks = 0 ∧
    (createInitialState rand ids).lastWrongId = none ∧
    (createInitialState rand ids).status = Status.playing :=
  ⟨shuffleArray_perm rand ids, (shuffleArray_perm rand ids).length_eq,
    rfl, rfl, rfl, rfl, rfl, rfl⟩

/-- C4, witness: the three-country session starts with a play order that is a
permutation of the input ids. -/
theorem C4_witness :
    List.Perm (createInitialState (fun n => n) ["x", "y", "z"]).countryOrder
      ["x", "y", "z"] :=
  (C4_init_state (fun n => n) ["x", "y", "z"] (by decide)).1

/-- C5: in a reachable `Playing` state, a click on an id that is not yet
completed and differs from `playOrder[cursor]` increments `wrongClicks` by
exactly one, records the id in `lastWrongId`, moves `lastWrongAt` to the
current (monotone) clock value — hence to a value at least the previous
one — and leaves cursor, completed, skipped and status unchanged. -/
theorem C5_wrong_click (s : GameState) (cid : String) (now : Nat)
    (hr : Reachable s) (hp : s.status = Status.playing)
    (hc : cid ∉ s.completed)
    (ht : cid ≠ s.countryOrder.getD s.currentIndex "")
    (hts : s.lastWrongTimestamp ≤ now) :
    (handleCountryClick s cid now).wrongClicks = s.wrongClicks + 1 ∧
    (handleCountryClick s cid now).lastWrongId = some cid ∧
    s.lastWrongTimestamp ≤ (handleCountryClick s cid now).lastWrongTimestamp ∧
    (handleCountryClick s cid now).lastWrongTimestamp = now ∧
    (handleCountryClick s cid now).currentIndex = s.currentIndex ∧
    (handleCountryClick s cid now).completed = s.completed ∧
    (handleCountryClick s cid now).skipped = s.skipped ∧
    (handleCountryClick s cid now).status = s.status := by
  have hB := invB_reachable s hr
  have h1 : s.status ≠ Status.finished := by simp [hp]
  have ht' : cid ≠ s.currentTargetId := by
    rw [hB.target_eq]
    exact ht
  rw [click_wrong s cid now h1 hc ht']
  exact ⟨rfl, rfl, hts, rfl, rfl, rfl, rfl, rfl⟩

/-- C5, witness: clicking the unknown id `"z"` at the start of a two-country
session bumps the wrong-click counter to one. -/
theorem C5_witness :
    (handleCountryClick (createInitialState (fun n => n) ["a", "b"]) "z" 7).wrongClicks =
      (createInitialState (fun n => n) ["a", "b"]).wrongClicks + 1 :=
  (C5_wrong_click _ "z" 7 ⟨["a", "b"], fun n => n, [], rfl⟩ rfl (by decide)
    (by decide) (by decide)).1

/-- C6: from any reachable `Playing` state, `skip` adds exactly the current
target `playOrder[cursor]` to `skipped`, advances the cursor by exactly one,
clears `lastWrongId`, and finishes exactly when the new cursor reaches the
end of the play order (`length ≤ cursor + 1`; for a non-empty play order this
is the equality `cursor + 1 = length`) — regardless of any preceding
clicks. -/
theorem C6_skip (s : GameState) (hr : Reachable s) (hp : s.status = Status.playing) :
    (skipCountry s).skipped = insert (s.countryOrder.getD s.currentIndex "") s.skipped ∧
    (skipCountry s).currentIndex = s.currentIndex + 1 ∧
    (skipCountry s).lastWrongId = none ∧
    ((skipCountry s).status = Status.finished ↔
      s.countryOrder.length ≤ s.currentIndex + 1) ∧
    (s.countryOrder ≠ [] →
      ((skipCountry s).status = Status.finished ↔
        s.currentIndex + 1 = s.countryOrder.length)) := by
  have hB := invB_reachable s hr
  have h1 : s.status ≠ Status.finished := by simp [hp]
  rw [skip_playing s h1]
  refine ⟨?_, rfl, rfl, ?_, ?_⟩
  · rw [hB.target_eq]
  · by_cases hc : s.countryOrder.length ≤ s.currentIndex + 1
    · simp [hc]
    · simp [hc]
  · intro hne
    rcases hB.play_lt hp with hlt | ⟨hemp, _⟩
    · by_cases hc : s.countryOrder.length ≤ s.currentIndex + 1
      · simp [hc]
        omega
      · simp [hc]
        omega
    · exact absurd hemp hne

/-- C6, witness: one skip at the start of a two-country session advances the
cursor from `0` to `1`. -/
theorem C6_witness :
    (skipCountry (createInitialState (fun n => n) ["a", "b"])).currentIndex =
      (createInitialState (fun n => n) ["a", "b"]).currentIndex + 1 :=
  (C6_skip _ ⟨["a", "b"], fun n => n, [], rfl⟩ rfl).2.1

/-- C7, counterexample: after a wrong click at time `5`, a correct click
clears `lastWrongId` but does NOT clear `lastWrongAt` — the timestamp stays
`5` instead of returning to its cleared value `0`. -/
theorem C7_counterexample :
    (handleCountryClick (handleCountryClick
        (createInitialState (fun n => n) ["a", "b"]) "z" 5) "a" 9).lastWrongId = none ∧
    (handleCountryClick (handleCountryClick
        (createInitialState (fun n => n) ["a", "b"]) "z" 5) "a" 9).lastWrongTimestamp = 5 := by
  decide

/-- C7, amended: every correct click and every skip clears `lastWrongId`
(leaving `lastWrongAt` untouched), and a reset clears both `lastWrongId` and
`lastWrongAt` (the timestamp returns to `0`). -/
theorem C7_last_wrong_clearing (s : GameState) (cid : String) (now : Nat)
    (rand : Nat → Nat) (ids : List String)
    (hp : s.status = Status.playing) (hc : cid ∉ s.completed)
    (ht : cid = s.currentTargetId) :
    ((handleCountryClick s cid now).lastWrongId = none ∧
      (handleCountryClick s cid now).lastWrongTimestamp = s.lastWrongTimestamp) ∧
    ((skipCountry s).lastWrongId = none ∧
      (skipCountry s).lastWrongTimestamp = s.lastWrongTimestamp) ∧
    ((resetGame rand ids).lastWrongId = none ∧
      (resetGame rand ids).lastWrongTimestamp = 0) := by
  have h1 : s.status ≠ Status.finished := by simp [hp]
  refine ⟨?_, ?_, rfl, rfl⟩
  · rw [click_correct s cid now h1 hc ht]
    exact ⟨rfl, rfl⟩
  · rw [skip_playing s h1]
    exact ⟨rfl, rfl⟩

/-- C7, witness: the correct click on `"a"` at the start of a two-country
session leaves no last-wrong id. -/
theorem C7_witness :
    (handleCountryClick (createInitialState (fun n => n) ["a", "b"]) "a" 4).lastWrongId =
      none :=
  (C7_last_wrong_clearing _ "a" 4 (fun n => n) ["a", "b"] rfl (by decide) rfl).1.1

/-- C8: once `status = Finished`, `submitClick` (with any id) and `skip`
return the state unchanged, and hence any sequence of clicks and skips
leaves the state — in particular `completed`, `skipped`, `wrongClicks` and
the cursor — exactly as it was. -/
theorem C8_finished_absorbing (s : GameState) (h : s.status = Status.finished) :
    (∀ cid now, handleCountryClick s cid now = s) ∧
    skipCountry s = s ∧
    (∀ acts, run s acts = s) := by
  refine ⟨fun cid now => click_finished s cid now h, skip_finished s h, ?_⟩
  intro acts
  induction acts with
  | nil => rfl
  | cons a as ih =>
    show run (applyAct s a) as = s
    have ha : applyAct s a = s := by
      cases a with
      | click cid now => exact click_finished s cid now h
      | skipA => exact skip_finished s h
    rw [ha]
    exact ih

/-- C8, witness: in the finished one-country session, a click on `"z"`, a
skip, and a click-then-skip sequence all leave the state unchanged. -/
theorem C8_witness :
    (handleCountryClick (handleCountryClick
        (createInitialState (fun n => n) ["a"]) "a" 0) "z" 3 =
      handleCountryClick (createInitialState (fun n => n) ["a"]) "a" 0) ∧
    (skipCountry (handleCountryClick (createInitialState (fun n => n) ["a"]) "a" 0) =
      handleCountryClick (createInitialState (fun n => n) ["a"]) "a" 0) ∧
    (run (handleCountryClick (createInitialState (fun n => n) ["a"]) "a" 0)
        [Act.click "q" 4, Act.skipA] =
      handleCountryClick (createInitialState (fun n => n) ["a"]) "a" 0) :=
  ⟨(C8_finished_absorbing _ (by decide)).1 "z" 3,
    (C8_finished_absorbing _ (by decide)).2.1,
    (C8_finished_absorbing _ (by decide)).2.2 [Act.click "q" 4, Act.skipA]⟩

/-- C9, counterexample: in the reachable finished one-country session, a
click on the unknown id `"z"` is a no-op — the state is returned unchanged
and `wrongClickCount` stays `0` — not a wrong-click transition. -/
theorem C9_counterexample :
    (handleCountryClick (handleCountryClick
        (createInitialState (fun n => n) ["a"]) "a" 0) "z" 1).wrongClicks = 0 ∧
    handleCountryClick (handleCountryClick
        (createInitialState (fun n => n) ["a"]) "a" 0) "z" 1 =
      handleCountryClick (createInitialState (fun n => n) ["a"]) "a" 0 := by
  decide

/-- C9, amended: in every reachable PLAYING state of a session over a
non-empty catalog, a click on an id not in the catalog performs exactly the
wrong-click transition (no error, no validation: the unknown id is simply
"not the target"); all transitions are total functions by construction. -/
theorem C9_unknown_id (ids : List String) (s : GameState)
    (cid : String) (now : Nat) (hr : ReachableFrom ids s)
    (hp : s.status = Status.playing) (hne : ids ≠ []) (hcat : cid ∉ ids) :
    handleCountryClick s cid now =
      { s with
        wrongClicks := s.wrongClicks + 1
        lastWrongId := some cid
        lastWrongTimestamp := now } := by
  have hB := invB_reachable s ⟨ids, hr⟩
  have hperm := perm_of_reachableFrom ids s hr
  have hOrder : cid ∉ s.countryOrder := fun hm => hcat (hperm.mem_iff.mp hm)
  have hordne : s.countryOrder ≠ [] := by
    intro h0
    rw [h0] at hperm
    exact hne (List.Perm.eq_nil hperm.symm)
  have h2 : cid ∉ s.completed := fun hm => hOrder (hB.compl_sub hordne cid hm)
  have ht : cid ≠ s.currentTargetId := by
    intro he
    rcases hB.play_lt hp with hlt | ⟨hemp, _⟩
    · apply hOrder
      rw [he, hB.target_eq, List.getD_eq_getElem _ _ hlt]
      exact List.getElem_mem hlt
    · exact hordne hemp
  have h1 : s.status ≠ Status.finished := by simp [hp]
  exact click_wrong s cid now h1 h2 ht

/-- C9, witness: clicking the unknown id `"z"` at the start of a two-country
session performs the wrong-click transition. -/
theorem C9_witness :
    handleCountryClick (createInitialState (fun n => n) ["a", "b"]) "z" 2 =
      { createInitialState (fun n => n) ["a", "b"] with
        wrongClicks := (createInitialState (fun n => n) ["a", "b"]).wrongClicks + 1
        lastWrongId := some "z"
        lastWrongTimestamp := 2 } :=
  C9_unknown_id ["a", "b"] _ "z" 2 ⟨fun n => n, [], rfl⟩ rfl (by decide) (by decide)

/-- C10, counterexample: the empty id list is duplicate-free, yet after one
skip from `initialize([])` the union of `completed` and `skipped` is
`{""}` while the first `cursor` elements of the (empty) play order form the
empty set. -/
theorem C10_counterexample :
    (skipCountry (createInitialState (fun n => n) [])).completed ∪
      (skipCountry (createInitialState (fun n => n) [])).skipped ≠
    ((skipCountry (createInitialState (fun n => n) [])).countryOrder.take
      (skipCountry (createInitialState (fun n => n) [])).currentIndex).toFinset := by
  decide

/-- C10, amended: provided the initial id list is duplicate-free AND
non-empty, in every reachable state the union of `completed` and `skipped`
is exactly the set of the first `cursor` elements of `playOrder`, and the
two sets are disjoint. -/
theorem C10_history (ids : List String) (s : GameState)
    (hnd : ids.Nodup) (hne : ids ≠ []) (hr : ReachableFrom ids s) :
    s.completed ∪ s.skipped = (s.countryOrder.take s.currentIndex).toFinset ∧
    Disjoint s.completed s.skipped := by
  have hS := invS_reachableFrom ids s hnd hr
  refine ⟨?_, hS.disj⟩
  have hh : s.completed ∪ s.skipped =
      ((List.range s.currentIndex).map (fun i => s.countryOrder.getD i "")).toFinset :=
    hS.hist
  rw [hh, range_map_getD_take s.countryOrder "" s.currentIndex
    (cursor_le_length ids s hne hr)]

/-- C10, witness: after skipping `"a"` and then clicking `"b"` in a
two-country session, completed and skipped together are exactly the two
passed ids. -/
theorem C10_witness :
    (run (createInitialState (fun n => n) ["a", "b"])
        [Act.skipA, Act.click "b" 3]).completed ∪
      (run (createInitialState (fun n => n) ["a", "b"])
        [Act.skipA, Act.click "b" 3]).skipped =
      ((run (createInitialState (fun n => n) ["a", "b"])
        [Act.skipA, Act.click "b" 3]).countryOrder.take
        (run (createInitialState (fun n => n) ["a", "b"])
          [Act.skipA, Act.click "b" 3]).currentIndex).toFinset :=
  (C10_history ["a", "b"] _ (by decide) (by decide)
    ⟨fun n => n, [Act.skipA, Act.click "b" 3], rfl⟩).1

end WorldMap
